import Mathlib

/-!
Verification development for the car-parking navigation core.

The TypeScript sources are shallowly embedded:
* IEEE-754 doubles in code paths where only finite values arise are modelled
  by `ℚ`; the one code path where JavaScript's `Infinity`/`NaN` semantics is
  observable (the `remainingTime` division in `calculateProgress`) is modelled
  by the `JsNum` type, which carries the IEEE special values explicitly.
* The two scalar geometry helpers (`calculateDistance`, the haversine, and
  `pointToLineDistance`, a Euclidean distance using `Math.sqrt`) return
  transcendental reals; every algorithm that consumes them is parametric in
  the scalar function, so the embeddings take the distance function `d`
  (resp. `ptd`) as an explicit argument and the theorems quantify over it.
* Timestamps (`Date.now()`) are modelled by `ℤ` (milliseconds).
* `setTimeout`-based behaviour (the camera idle timer) is modelled by an
  explicit event semantics: an `interact` event runs the user-interaction
  handler, a `tick` event fires the pending timer if its scheduled time has
  been reached.
-/

namespace CarPark

/-- `Coordinates` from `src/types/index.ts`: latitude/longitude pair. -/
structure Coordinates where
  latitude : ℚ
  longitude : ℚ
deriving DecidableEq, Inhabited, Repr

/-- `RouteStep` from `src/types/index.ts` (maneuver metadata omitted: no
claim mentions it). -/
structure RouteStep where
  instruction : String
  distance : ℚ
  duration : ℚ
  coordinates : List Coordinates
deriving DecidableEq, Inhabited, Repr

/-- `NavigationRoute` from `src/types/index.ts`. -/
structure NavigationRoute where
  distance : ℚ
  duration : ℚ
  steps : List RouteStep
  coordinates : List Coordinates
deriving DecidableEq, Inhabited, Repr

/-- `UserLocation` from `src/types/index.ts`. -/
structure UserLocation where
  coordinates : Coordinates
  heading : Option ℚ := none
  speed : Option ℚ := none
  accuracy : Option ℚ := none
  timestamp : ℤ := 0
deriving DecidableEq, Inhabited, Repr

/-- JavaScript number with the IEEE-754 special values that the code can
produce (`fin q` stands for any finite double, modelled exactly by a
rational; the sign of zero is not distinguished, which is faithful on the
operations used here). -/
inductive JsNum where
  | fin (q : ℚ)
  | posInf
  | negInf
  | nan
deriving DecidableEq, Repr

namespace JsNum

/-- JavaScript `+` on numbers (restricted to the cases reachable here). -/
def add : JsNum → JsNum → JsNum
  | nan, _ => nan
  | _, nan => nan
  | fin a, fin b => fin (a + b)
  | posInf, negInf => nan
  | negInf, posInf => nan
  | posInf, _ => posInf
  | _, posInf => posInf
  | negInf, _ => negInf
  | _, negInf => negInf

/-- JavaScript `*` on numbers: `Infinity * 0 = NaN`, sign rules otherwise. -/
def mul : JsNum → JsNum → JsNum
  | nan, _ => nan
  | _, nan => nan
  | fin a, fin b => fin (a * b)
  | posInf, fin b => if b = 0 then nan else if 0 < b then posInf else negInf
  | fin a, posInf => if a = 0 then nan else if 0 < a then posInf else negInf
  | negInf, fin b => if b = 0 then nan else if 0 < b then negInf else posInf
  | fin a, negInf => if a = 0 then nan else if 0 < a then negInf else posInf
  | posInf, posInf => posInf
  | posInf, negInf => negInf
  | negInf, posInf => negInf
  | negInf, negInf => posInf

/-- JavaScript `/` on numbers: `0/0 = NaN`, `x/0 = ±Infinity` for `x ≠ 0`
(the negative-zero denominator case is outside the modelled range). -/
def div : JsNum → JsNum → JsNum
  | nan, _ => nan
  | _, nan => nan
  | fin a, fin b =>
      if b = 0 then (if a = 0 then nan else if 0 < a then posInf else negInf)
      else fin (a / b)
  | fin _, posInf => fin 0
  | fin _, negInf => fin 0
  | posInf, fin b => if 0 ≤ b then posInf else negInf
  | negInf, fin b => if 0 ≤ b then negInf else posInf
  | posInf, posInf => nan
  | posInf, negInf => nan
  | negInf, posInf => nan
  | negInf, negInf => nan

end JsNum

/-- Result record of `RoutingService.calculateProgress`
(`src/services/RoutingService.ts:331-381`).  `remainingTime` is the one
field whose computation can leave the finite doubles, so it is a `JsNum`. -/
structure RouteProgress where
  remainingDistance : ℚ
  remainingTime : JsNum
  nextTurnInstruction : Option String
  nextTurnDistance : Option ℚ
deriving DecidableEq, Repr

/-- `RoutingService.calculateProgress` (`src/services/RoutingService.ts:331-381`),
parametric in the scalar distance `d` (the source's haversine
`calculateDistance`).  The source accumulates `remainingDistance` and
`remainingTime` in two independent mutable variables inside one
`if (currentStepIndex < route.steps.length)` block; the embedding computes
each accumulator with its own copy of that conditional, which yields the
same values.  The source reads
`currentStep.coordinates[currentStep.coordinates.length - 1]` and
`nextStep.coordinates[0]`; the embedding uses `getLastD`/`headD`, which agree
with the source whenever the step geometry is non-empty (every claim assumes
this; on empty geometry the source would produce `NaN` from `undefined`). -/
def calculateProgress (d : Coordinates → Coordinates → ℚ)
    (currentPosition : Coordinates) (route : NavigationRoute)
    (currentStepIndex : ℕ) : RouteProgress :=
  { remainingDistance :=
      if h : currentStepIndex < route.steps.length then
        let currentStep := route.steps.get ⟨currentStepIndex, h⟩
        let distanceToStepEnd := d currentPosition (currentStep.coordinates.getLastD default)
        (route.steps.drop (currentStepIndex + 1)).foldl
          (fun acc s => acc + s.distance) distanceToStepEnd
      else 0
    remainingTime :=
      if h : currentStepIndex < route.steps.length then
        let currentStep := route.steps.get ⟨currentStepIndex, h⟩
        let distanceToStepEnd := d currentPosition (currentStep.coordinates.getLastD default)
        (route.steps.drop (currentStepIndex + 1)).foldl
          (fun acc s => acc.add (JsNum.fin s.duration))
          ((JsNum.fin 0).add
            (((JsNum.fin distanceToStepEnd).div (JsNum.fin currentStep.distance)).mul
              (JsNum.fin currentStep.duration)))
      else JsNum.fin 0
    nextTurnInstruction :=
      if h : currentStepIndex + 1 < route.steps.length then
        some (route.steps.get ⟨currentStepIndex + 1, h⟩).instruction
      else none
    nextTurnDistance :=
      if h : currentStepIndex + 1 < route.steps.length then
        some (d currentPosition ((route.steps.get ⟨currentStepIndex + 1, h⟩).coordinates.headD default))
      else none }

/-- Inner loop of `RoutingService.findCurrentStepIndex`
(`src/services/RoutingService.ts:393-401`): scan one step's geometry,
updating the running `(minDistance, currentStepIndex)` accumulator.
`minDistance` starts at `Infinity`, modelled by `⊤ : WithTop ℚ`. -/
def findScanCoords (d : Coordinates → Coordinates → ℚ) (currentPosition : Coordinates)
    (index : ℕ) : List Coordinates → WithTop ℚ × ℕ → WithTop ℚ × ℕ
  | [], acc => acc
  | c :: cs, (b, r) =>
      if (d currentPosition c : WithTop ℚ) < b then
        findScanCoords d currentPosition index cs (d currentPosition c, index)
      else
        findScanCoords d currentPosition index cs (b, r)

/-- Outer loop of `RoutingService.findCurrentStepIndex`: scan the steps in
order, carrying the running step index. -/
def findScanSteps (d : Coordinates → Coordinates → ℚ) (currentPosition : Coordinates) :
    ℕ → List RouteStep → WithTop ℚ × ℕ → WithTop ℚ × ℕ
  | _, [], acc => acc
  | i, s :: ss, acc =>
      findScanSteps d currentPosition (i + 1) ss
        (findScanCoords d currentPosition i s.coordinates acc)

/-- `RoutingService.findCurrentStepIndex` (`src/services/RoutingService.ts:386-404`):
the index of the step containing the globally closest geometry point,
first-minimum-wins. -/
def findCurrentStepIndex (d : Coordinates → Coordinates → ℚ)
    (currentPosition : Coordinates) (route : NavigationRoute) : ℕ :=
  (findScanSteps d currentPosition 0 route.steps (⊤, 0)).2

/-- Mutable fields of the `PerformanceOptimizer` singleton
(`src/utils/PerformanceOptimizer.ts`, packaged in `SvgIcons.tsx` in this
snapshot).  The constants (`LOCATION_UPDATE_INTERVAL = 1000`,
`ORIENTATION_UPDATE_INTERVAL = 100`, `STATIONARY_THRESHOLD = 30000`,
`STATIONARY_SPEED_THRESHOLD = 1`, `MAP_UPDATE_DISTANCE_THRESHOLD = 10`) are
inlined at their use sites. -/
structure OptimizerState where
  lastLocationUpdate : ℤ := 0
  lastOrientationUpdate : ℤ := 0
  isStationary : Bool := false
  stationaryStartTime : ℤ := 0
  lastMapUpdateLocation : Option Coordinates := none
deriving DecidableEq, Inhabited, Repr

/-- `PerformanceOptimizer.updateStationaryState`: `location.speed || 0`
compared against the 1 m/s threshold; a slow sample starts (or keeps) the
stationary clock, a fast sample clears it. -/
def updateStationaryState (st : OptimizerState) (now : ℤ) (location : UserLocation) :
    OptimizerState :=
  let speed := location.speed.getD 0
  if speed < 1 then
    if st.isStationary = false then
      { st with isStationary := true, stationaryStartTime := now }
    else st
  else
    { st with isStationary := false, stationaryStartTime := 0 }

/-- `PerformanceOptimizer.shouldUpdateLocation`: returns the gate's verdict
together with the successor state (the TypeScript method mutates `this`). -/
def shouldUpdateLocation (st : OptimizerState) (now : ℤ) (location : UserLocation) :
    Bool × OptimizerState :=
  if st.lastLocationUpdate = 0 then
    (true, { st with lastLocationUpdate := now })
  else if now - st.lastLocationUpdate < 1000 then
    (false, st)
  else
    let st1 := updateStationaryState st now location
    if st1.isStationary = true ∧ now - st1.stationaryStartTime > 30000 ∧
        now - st1.lastLocationUpdate < 5000 then
      (false, st1)
    else
      (true, { st1 with lastLocationUpdate := now })

/-- `PerformanceOptimizer.shouldUpdateOrientation`. -/
def shouldUpdateOrientationGate (st : OptimizerState) (now : ℤ) : Bool × OptimizerState :=
  if now - st.lastOrientationUpdate < 100 then (false, st)
  else (true, { st with lastOrientationUpdate := now })

/-- `PerformanceOptimizer.shouldUpdateMap`, parametric in the haversine `d`. -/
def shouldUpdateMap (d : Coordinates → Coordinates → ℚ) (st : OptimizerState)
    (location : UserLocation) : Bool × OptimizerState :=
  match st.lastMapUpdateLocation with
  | none => (true, { st with lastMapUpdateLocation := some location.coordinates })
  | some prev =>
      if d prev location.coordinates ≥ 10 then
        (true, { st with lastMapUpdateLocation := some location.coordinates })
      else (false, st)

/-- `PerformanceOptimizer.isPowerSavingMode`: the source is an acknowledged
stub that always returns `false` (there is no setter anywhere in the class). -/
def isPowerSavingMode : Bool := false

/-- Result record of `PerformanceOptimizer.getAdaptiveIntervals`. -/
structure AdaptiveIntervals where
  locationInterval : ℤ
  orientationInterval : ℤ
  mapUpdateInterval : ℤ
deriving DecidableEq, Repr

/-- Body of `PerformanceOptimizer.getAdaptiveIntervals` as a function of the
value returned by `isPowerSavingMode` (the source reads
`const isPowerSaving = this.isPowerSavingMode()`). -/
def getAdaptiveIntervalsWith (isPowerSaving : Bool) : AdaptiveIntervals :=
  let multiplier : ℤ := if isPowerSaving then 2 else 1
  { locationInterval := 1000 * multiplier
    orientationInterval := 100 * multiplier
    mapUpdateInterval := 500 * multiplier }

/-- `PerformanceOptimizer.getAdaptiveIntervals` exactly as the source runs it. -/
def getAdaptiveIntervals : AdaptiveIntervals :=
  getAdaptiveIntervalsWith isPowerSavingMode

/-- `PerformanceOptimizer.reset`. -/
def resetOptimizer : OptimizerState :=
  { lastLocationUpdate := 0, lastOrientationUpdate := 0, isStationary := false
    stationaryStartTime := 0, lastMapUpdateLocation := none }

/-- The `for` loop of `MemoryManager.douglasPeucker` computing
`(maxDistance, maxIndex)` over `middle = points.slice(1)` (which includes
the last point, exactly as in the source); the recorded index is the
position in `points`, hence the `+ 1`.  The fold over `middle.enum` carries
the pair `(maxDistance, maxIndex)`, initially `(0, 0)`. -/
def dpMaxScan (ptd : Coordinates → Coordinates → Coordinates → ℚ)
    (first last : Coordinates) (middle : List Coordinates) : ℚ × ℕ :=
  middle.enum.foldl
    (fun acc ic =>
      if ptd ic.2 first last > acc.1 then (ptd ic.2 first last, ic.1 + 1) else acc)
    (0, 0)

/-- `MemoryManager.douglasPeucker` (`PerformanceOptimizer.ts`), parametric in
the scalar point-to-segment distance `ptd point lineStart lineEnd` (the
source's `pointToLineDistance` uses `Math.sqrt`, hence is transcendental).
The JavaScript recursion is not structurally terminating (for a negative
tolerance on degenerate input it recurses on the whole list forever), so the
embedding takes a fuel argument and returns `none` when the fuel runs out,
modelling divergence/stack overflow. -/
def douglasPeucker (ptd : Coordinates → Coordinates → Coordinates → ℚ) :
    ℕ → List Coordinates → ℚ → Option (List Coordinates)
  | 0, _, _ => none
  | fuel + 1, points, tolerance =>
    if points.length ≤ 2 then some points
    else
      if (dpMaxScan ptd (points.headD default) (points.getLastD default)
            (points.drop 1)).1 > tolerance then
        match douglasPeucker ptd fuel
                (points.take ((dpMaxScan ptd (points.headD default)
                  (points.getLastD default) (points.drop 1)).2 + 1)) tolerance,
              douglasPeucker ptd fuel
                (points.drop (dpMaxScan ptd (points.headD default)
                  (points.getLastD default) (points.drop 1)).2) tolerance with
        | some left, some right => some (left.dropLast ++ right)
        | _, _ => none
      else some [points.headD default, points.getLastD default]

/-- `MemoryManager.simplifyRoute`: identity under the 1000-point cap,
otherwise Douglas-Peucker at tolerance `0.0001`. -/
def simplifyRoute (ptd : Coordinates → Coordinates → Coordinates → ℚ) (fuel : ℕ)
    (coordinates : List Coordinates) : Option (List Coordinates) :=
  if coordinates.length ≤ 1000 then some coordinates
  else douglasPeucker ptd fuel coordinates (1 / 10000)

/-- First `while` loop of `OrientationService.normalizeHeading`
(`OrientationService.ts:110-114`): `while (heading < 0) heading += 360`. -/
def normUp (heading : ℚ) : ℚ :=
  if h : heading < 0 then normUp (heading + 360) else heading
termination_by (⌈-heading / 360⌉).toNat
decreasing_by
  have h360 : (-(heading + 360)) / 360 = -heading / 360 - 1 := by ring
  have hceil : ⌈(-(heading + 360)) / 360⌉ = ⌈-heading / 360⌉ - 1 := by
    rw [h360]
    exact_mod_cast Int.ceil_sub_int (-heading / 360) 1
  have hpos : 0 < ⌈-heading / 360⌉ := by
    apply Int.ceil_pos.mpr
    apply div_pos (by linarith) (by norm_num)
  omega

/-- Second `while` loop of `OrientationService.normalizeHeading`:
`while (heading >= 360) heading -= 360`. -/
def normDown (heading : ℚ) : ℚ :=
  if h : 360 ≤ heading then normDown (heading - 360) else heading
termination_by (⌊heading / 360⌋).toNat
decreasing_by
  have h360 : (heading - 360) / 360 = heading / 360 - 1 := by ring
  have hfloor : ⌊(heading - 360) / 360⌋ = ⌊heading / 360⌋ - 1 := by
    rw [h360]
    exact_mod_cast Int.floor_sub_int (heading / 360) 1
  have hpos : 0 < ⌊heading / 360⌋ := by
    rw [Int.lt_iff_add_one_le, zero_add, Int.le_floor]
    rw [show ((1 : ℤ) : ℚ) = 1 from rfl, le_div_iff₀ (by norm_num : (0:ℚ) < 360)]
    linarith
  omega

/-- `OrientationService.normalizeHeading`: run the two `while` loops in
source order. -/
def normalizeHeading (heading : ℚ) : ℚ :=
  normDown (normUp heading)

/-- `OrientationService.applySmoothingToHeading`
(`OrientationService.ts:119-138`): shortest angular delta, exponential
smoothing with factor `s` (the source's `this.smoothingFactor`), then
normalization. -/
def applySmoothingToHeading (s : ℚ) (currentHeading newHeading : ℚ) : ℚ :=
  let diff := newHeading - currentHeading
  let diff2 := if diff > 180 then diff - 360 else if diff < -180 then diff + 360 else diff
  let smoothedDiff := diff2 * (1 - s)
  let smoothedHeading := currentHeading + smoothedDiff
  normalizeHeading smoothedHeading

/-- Heading pipeline of `OrientationService.handleOrientationChange`
(`OrientationService.ts:59-92`) on a numeric input: normalize the raw
heading, then smooth against the previous smoothed heading when one exists
(`lastSmoothed`, the source's `this.lastOrientation?.heading`). -/
def handleOrientationChange (s : ℚ) (lastSmoothed : Option ℚ) (rawHeading : ℚ) : ℚ :=
  let heading := normalizeHeading rawHeading
  match lastSmoothed with
  | none => heading
  | some prev => applySmoothingToHeading s prev heading

/-- Camera-side state of the `CarParkingMap` component: the
`isUserControlled`/`bearing`/`lastUserInteraction` fields of `CameraState`,
the pending idle timer (`userIdleTimeoutRef`, as the absolute time at which
it is scheduled to fire), and the `lastCallTime` of the 100 ms `throttle`
wrapper around `handleUserMapInteraction`. -/
structure CamSys where
  isUserControlled : Bool := false
  bearing : ℚ := 0
  lastUserInteraction : ℤ := 0
  idleTimeout : Option ℤ := none
  throttleLast : ℤ := 0
deriving DecidableEq, Inhabited, Repr

/-- `handleUserMapInteraction` (`CarParkingMap`, with its `throttle(_, 100)`
wrapper): an interaction within 100 ms of the previously processed one is
dropped; otherwise the camera becomes user-controlled, any pending idle
timer is cancelled, and a fresh 10 s timer is scheduled when navigating. -/
def handleUserMapInteraction (navigating : Bool) (now : ℤ) (s : CamSys) : CamSys :=
  if 100 ≤ now - s.throttleLast then
    { s with throttleLast := now
             isUserControlled := true
             lastUserInteraction := now
             idleTimeout := if navigating then some (now + 10000) else none }
  else s

/-- Body of the idle-timeout callback scheduled by `handleUserMapInteraction`:
back to autonomous, bearing reset to 0. -/
def fireIdleTimer (s : CamSys) : CamSys :=
  { s with isUserControlled := false, bearing := 0, idleTimeout := none }

/-- Scheduler step at time `now`: the pending single-shot timer fires
exactly when its scheduled time has been reached. -/
def camTick (now : ℤ) (s : CamSys) : CamSys :=
  match s.idleTimeout with
  | some tf => if tf ≤ now then fireIdleTimer s else s
  | none => s

/-- Events driving the camera state machine. -/
inductive CamEvent where
  | interact (now : ℤ)
  | tick (now : ℤ)
deriving DecidableEq, Repr

/-- One event. -/
def camStep (navigating : Bool) (s : CamSys) : CamEvent → CamSys
  | .interact now => handleUserMapInteraction navigating now s
  | .tick now => camTick now s

/-- A whole event trace. -/
def camRun (navigating : Bool) (s : CamSys) (evs : List CamEvent) : CamSys :=
  evs.foldl (camStep navigating) s

/-- `camGapOK tf tl evs`: every event in `evs` happens strictly before the
idle timer currently pending at `tf`, and every interaction passes the
100 ms throttle whose last processed call was at `tl`; a processed
interaction at `t` reschedules the timer to `t + 10000`. -/
def camGapOK : ℤ → ℤ → List CamEvent → Bool
  | _, _, [] => true
  | tf, tl, CamEvent.tick t :: rest => decide (t < tf) && camGapOK tf tl rest
  | tf, tl, CamEvent.interact t :: rest =>
      decide (t < tf) && decide (100 ≤ t - tl) && camGapOK (t + 10000) t rest

/-- `ParkingSlot` from `src/types/index.ts` (pricing/amenity fields omitted:
no claim mentions them). -/
structure ParkingSlot where
  id : String
  coordinates : Coordinates
  capacity : ℕ
  occupiedSpots : ℕ
deriving DecidableEq, Repr

/-- `NavigationState` from `src/types/index.ts` (`estimatedTimeArrival` as a
rational timestamp). -/
structure NavState where
  isNavigating : Bool
  currentRoute : Option NavigationRoute := none
  targetParkingSlot : Option ParkingSlot := none
  currentStepIndex : ℕ
  remainingDistance : ℚ
  estimatedTimeArrival : ℚ
  nextTurnInstruction : Option String := none
  nextTurnDistance : Option ℚ := none
deriving DecidableEq, Repr

/-- Outcome of `handleStartNavigation`: success, the "Location Required"
alert, or the "Navigation Error" alert from the `catch` block. -/
inductive StartResult where
  | ok
  | locationRequired
  | navError
deriving DecidableEq, Repr

/-- The component state touched by navigation start: the location, the
navigation state, the camera, and `RoutingService`'s stored current route. -/
structure AppModel where
  userLocation : Option UserLocation
  navigationState : NavState
  camera : CamSys
  storedRoute : Option NavigationRoute
deriving DecidableEq, Repr

/-- `RoutingService.getRoute` (`src/services/RoutingService.ts:31-50`) at the
error boundary: a provider failure is caught and re-thrown as
`'Failed to fetch route'`; a provider success is returned unchanged. -/
def getRoute (providerResult : Except String NavigationRoute) :
    Except String NavigationRoute :=
  match providerResult with
  | .ok route => .ok route
  | .error _ => .error "Failed to fetch route"

/-- `handleStartNavigation` (`CarParkingMap`): requires a current location;
on route-fetch failure the `catch` block only raises an alert; on success the
navigation state is replaced wholesale (map animation and bottom-sheet
presentation omitted). -/
def handleStartNavigation (st : AppModel) (slot : ParkingSlot) (now : ℚ)
    (fetchResult : Except String NavigationRoute) : AppModel × StartResult :=
  match st.userLocation with
  | none => (st, .locationRequired)
  | some _ =>
    match fetchResult with
    | .error _ => (st, .navError)
    | .ok route =>
        ({ st with navigationState :=
            { isNavigating := true
              currentRoute := some route
              targetParkingSlot := some slot
              currentStepIndex := 0
              remainingDistance := route.distance
              estimatedTimeArrival := now + route.duration
              nextTurnInstruction := route.steps.head?.map RouteStep.instruction
              nextTurnDistance := route.steps.head?.map RouteStep.distance } },
         .ok)

/-! Concrete data used by witnesses and counterexamples.  `dOne` and
`ptdZero` are explicit computable scalar functions standing in for the
transcendental geometry helpers (the parametric theorems hold for any scalar
function, the haversine included; `ptdZero` agrees with the source's
`pointToLineDistance` whenever the three points coincide, where that
function returns `Math.sqrt(0) = 0`). -/

/-- A computable scalar distance (the discrete metric) used to instantiate
the parametric `d`. -/
def dOne (a b : Coordinates) : ℚ :=
  if a = b then 0 else 1

/-- Point-to-segment distance that is identically `0`; agrees with the
source on triples of identical points. -/
def ptdZero (_point _lineStart _lineEnd : Coordinates) : ℚ := 0

/-- Three-step route used by the C1/C2 witnesses. -/
def route1 : NavigationRoute :=
  { distance := 23, duration := 60
    steps :=
      [ { instruction := "Head north on current road", distance := 5, duration := 10
          coordinates := [⟨0, 0⟩, ⟨0, 2⟩] }
      , { instruction := "Turn left onto Main Road", distance := 7, duration := 20
          coordinates := [⟨0, 3⟩, ⟨0, 4⟩] }
      , { instruction := "Arrive at destination", distance := 11, duration := 30
          coordinates := [⟨0, 9⟩] } ]
    coordinates := [⟨0, 0⟩, ⟨0, 2⟩, ⟨0, 3⟩, ⟨0, 4⟩, ⟨0, 9⟩] }

/-- Position between the first step's two geometry points. -/
def pos1 : Coordinates := ⟨0, 1⟩

/-- Single-step route whose step has scalar distance `0` (ingest only
requires non-negativity), used by the C10 counterexample. -/
def routeZero : NavigationRoute :=
  { distance := 0, duration := 60
    steps := [{ instruction := "Arrive at destination", distance := 0, duration := 60
                coordinates := [⟨0, 0⟩] }]
    coordinates := [⟨0, 0⟩] }

/-- A position away from `routeZero`'s only geometry point. -/
def posZ : Coordinates := ⟨0, 1⟩

/-- A stationary sample (speed 0). -/
def locStill : UserLocation := { coordinates := ⟨0, 0⟩, speed := some 0 }

/-- A clearly moving sample (speed 5 m/s). -/
def locFast : UserLocation := { coordinates := ⟨0, 0⟩, speed := some 5 }

/-- Optimizer state mid-session: last accepted sample at t = 100000, not
stationary. -/
def stRun : OptimizerState := { lastLocationUpdate := 100000 }

/-- Optimizer state mid-session with the stationary classification set. -/
def stStat : OptimizerState :=
  { lastLocationUpdate := 100000, isStationary := true, stationaryStartTime := 50000 }

/-- Event trace for the C3 counterexample: a processed interaction, a second
interaction 99 ms later (dropped by the 100 ms throttle), and the idle timer
firing 10 s after the first interaction. -/
def c3CexEvents : List CamEvent :=
  [.interact 100000, .interact 100099, .tick 110000]

/-- User-controlled camera with a pending timer, for the C3 witness. -/
def camUC : CamSys :=
  { isUserControlled := true, bearing := 30, lastUserInteraction := 100000
    idleTimeout := some 110000, throttleLast := 100000 }

/-- Interactions 1 s apart (each passing the throttle), then a tick before
the rescheduled timer, for the C3 witness. -/
def c3WitEvents : List CamEvent :=
  [.interact 101000, .interact 102000, .tick 105000]

/-- App state with a known location and no active navigation. -/
def appEx : AppModel :=
  { userLocation := some { coordinates := ⟨0, 0⟩ }
    navigationState :=
      { isNavigating := false, currentStepIndex := 0, remainingDistance := 0
        estimatedTimeArrival := 0 }
    camera := {}
    storedRoute := none }

/-- A parking slot target. -/
def slotEx : ParkingSlot :=
  { id := "johar-town-1", coordinates := ⟨1, 1⟩, capacity := 10, occupiedSpots := 3 }

/-- Non-degenerate three-point polyline for the C7 witness. -/
def pts3 : List Coordinates := [⟨0, 0⟩, ⟨0, 1⟩, ⟨0, 2⟩]

/-- Degenerate polyline (three identical points) on which Douglas-Peucker
with a negative tolerance recurses forever. -/
def ptsDegenerate : List Coordinates := [⟨0, 0⟩, ⟨0, 0⟩, ⟨0, 0⟩]

/-! ### Helper lemmas -/

/-- `updateStationaryState` never touches the last-accepted timestamp. -/
theorem updateStationaryState_lastLocationUpdate (st : OptimizerState) (now : ℤ)
    (loc : UserLocation) :
    (updateStationaryState st now loc).lastLocationUpdate = st.lastLocationUpdate := by
  simp only [updateStationaryState]
  split_ifs <;> rfl

/-- A fast sample clears the stationary classification inside
`updateStationaryState`. -/
theorem updateStationaryState_fast (st : OptimizerState) (now : ℤ) (loc : UserLocation)
    (hsp : 1 ≤ loc.speed.getD 0) :
    (updateStationaryState st now loc).isStationary = false := by
  simp only [updateStationaryState]
  rw [if_neg (not_lt.mpr hsp)]

/-! ### C4 -/

/-- C4: `shouldUpdateLocation` accepts the first sample of a session
(`lastLocationUpdate = 0`), rejects any sample arriving less than 1000 ms
after the last accepted one, and accepts a non-stationary (speed at least
1 m/s) sample arriving at least 1000 ms after the last accepted one. -/
theorem shouldUpdateLocation_throttle_spec (st : OptimizerState) (now : ℤ)
    (loc : UserLocation) :
    (st.lastLocationUpdate = 0 → (shouldUpdateLocation st now loc).1 = true)
    ∧ (st.lastLocationUpdate ≠ 0 → now - st.lastLocationUpdate < 1000 →
        (shouldUpdateLocation st now loc).1 = false)
    ∧ (st.lastLocationUpdate ≠ 0 → 1000 ≤ now - st.lastLocationUpdate →
        1 ≤ loc.speed.getD 0 → (shouldUpdateLocation st now loc).1 = true) := by
  refine ⟨?_, ?_, ?_⟩
  · intro h
    simp [shouldUpdateLocation, h]
  · intro h hlt
    rw [shouldUpdateLocation, if_neg h, if_pos hlt]
  · intro h hge hsp
    rw [shouldUpdateLocation, if_neg h, if_neg (not_lt.mpr hge)]
    have hstat := updateStationaryState_fast st now loc hsp
    rw [if_neg (by simp [hstat])]

/-- Witness for C4 at concrete inputs. -/
theorem shouldUpdateLocation_throttle_witness :
    (resetOptimizer.lastLocationUpdate = 0
      ∧ (shouldUpdateLocation resetOptimizer 100000 locStill).1 = true)
    ∧ (stRun.lastLocationUpdate ≠ 0 ∧ (100010 : ℤ) - stRun.lastLocationUpdate < 1000
      ∧ (shouldUpdateLocation stRun 100010 locStill).1 = false)
    ∧ (stRun.lastLocationUpdate ≠ 0 ∧ (1000 : ℤ) ≤ 101100 - stRun.lastLocationUpdate
      ∧ 1 ≤ locFast.speed.getD 0
      ∧ (shouldUpdateLocation stRun 101100 locFast).1 = true) :=
  ⟨⟨by decide, (shouldUpdateLocation_throttle_spec resetOptimizer 100000 locStill).1 (by decide)⟩,
   ⟨by decide, by decide,
    (shouldUpdateLocation_throttle_spec stRun 100010 locStill).2.1 (by decide) (by decide)⟩,
   ⟨by decide, by decide, by decide,
    (shouldUpdateLocation_throttle_spec stRun 101100 locFast).2.2 (by decide) (by decide)
      (by decide)⟩⟩

/-! ### C5 -/

/-- C5 counterexample: a sample with speed 5 m/s arriving 500 ms after the
last accepted sample is rejected by the base-interval gate *before*
`updateStationaryState` runs, so the stationary classification is *not*
cleared by processing it. -/
theorem stationary_not_cleared_counterexample :
    1 ≤ locFast.speed.getD 0
    ∧ stStat.isStationary = true
    ∧ (shouldUpdateLocation stStat 100500 locFast).2.isStationary = true := by
  decide

/-- C5 amended: a fast sample clears the stationary classification whenever
it reaches the stationary-update step (not first sample, and at least the
base interval after the last accepted sample); and once the post-update
classification has been stationary for more than 30 s, acceptance requires
at least 5000 ms since the last accepted sample. -/
theorem stationary_clear_and_reduced_cadence (st : OptimizerState) (now : ℤ)
    (loc : UserLocation) :
    (st.lastLocationUpdate ≠ 0 → 1000 ≤ now - st.lastLocationUpdate →
      1 ≤ loc.speed.getD 0 → (shouldUpdateLocation st now loc).2.isStationary = false)
    ∧ (st.lastLocationUpdate ≠ 0 →
        (updateStationaryState st now loc).isStationary = true →
        now - (updateStationaryState st now loc).stationaryStartTime > 30000 →
        (shouldUpdateLocation st now loc).1 = true →
        5000 ≤ now - st.lastLocationUpdate) := by
  constructor
  · intro h hge hsp
    rw [shouldUpdateLocation, if_neg h, if_neg (not_lt.mpr hge)]
    have hstat := updateStationaryState_fast st now loc hsp
    rw [if_neg (by simp [hstat])]
    exact hstat
  · intro h hstat h30 hacc
    by_cases hlt : now - st.lastLocationUpdate < 1000
    · rw [shouldUpdateLocation, if_neg h, if_pos hlt] at hacc
      simp at hacc
    · rw [shouldUpdateLocation, if_neg h, if_neg hlt] at hacc
      by_cases hc : (updateStationaryState st now loc).isStationary = true
          ∧ now - (updateStationaryState st now loc).stationaryStartTime > 30000
          ∧ now - (updateStationaryState st now loc).lastLocationUpdate < 5000
      · rw [if_pos hc] at hacc
        simp at hacc
      · push_neg at hc
        have h5 := hc hstat h30
        rw [updateStationaryState_lastLocationUpdate] at h5
        exact h5

/-- Witness for the amended C5 at concrete inputs. -/
theorem stationary_clear_and_reduced_cadence_witness :
    ((shouldUpdateLocation stRun 101100 locFast).2.isStationary = false)
    ∧ ((5000 : ℤ) ≤ 140000 - stStat.lastLocationUpdate) :=
  ⟨(stationary_clear_and_reduced_cadence stRun 101100 locFast).1 (by decide) (by decide)
     (by decide),
   (stationary_clear_and_reduced_cadence stStat 140000 locStill).2 (by decide) (by decide)
     (by decide) (by decide)⟩

/-! ### C6 -/

/-- C6 counterexample: `isPowerSavingMode` is hard-coded `false`, and even
under the charitable reading in which it reported `true`, the doubled
interval (2000 ms) is not what the position gate uses: a sample 1500 ms
after the last accepted one is accepted, because `shouldUpdateLocation`
compares against the fixed constant 1000 ms and never consults
`getAdaptiveIntervals`. -/
theorem powerSaving_not_used_counterexample :
    isPowerSavingMode = false
    ∧ (getAdaptiveIntervalsWith true).locationInterval = 2000
    ∧ (101500 : ℤ) - stRun.lastLocationUpdate < 2000
    ∧ (shouldUpdateLocation stRun 101500 locFast).1 = true := by
  decide

/-- C6 amended: `getAdaptiveIntervals` would double all three reported
intervals if `isPowerSavingMode` reported `true`, but `isPowerSavingMode` is
a hard-coded `false` stub (there is no setter), so the multiplier in effect
is always 1; the runtime gates consult fixed constants, not these
intervals. -/
theorem adaptiveIntervals_spec :
    (getAdaptiveIntervalsWith true).locationInterval
        = 2 * (getAdaptiveIntervalsWith false).locationInterval
    ∧ (getAdaptiveIntervalsWith true).orientationInterval
        = 2 * (getAdaptiveIntervalsWith false).orientationInterval
    ∧ (getAdaptiveIntervalsWith true).mapUpdateInterval
        = 2 * (getAdaptiveIntervalsWith false).mapUpdateInterval
    ∧ isPowerSavingMode = false
    ∧ getAdaptiveIntervals = getAdaptiveIntervalsWith false := by
  decide

/-! ### C8 -/

/-- C8: when the route provider fails, `getRoute` surfaces the failure and
`handleStartNavigation` leaves the whole component state - navigation state,
camera state, and the stored current route - exactly as it was, reporting
the navigation error whenever a location was present. -/
theorem startNavigation_atomic_on_error (st : AppModel) (slot : ParkingSlot) (now : ℚ)
    (e : String) :
    (handleStartNavigation st slot now (getRoute (.error e))).1 = st
    ∧ (handleStartNavigation st slot now (getRoute (.error e))).1.navigationState
        = st.navigationState
    ∧ (handleStartNavigation st slot now (getRoute (.error e))).1.camera = st.camera
    ∧ (handleStartNavigation st slot now (getRoute (.error e))).1.storedRoute = st.storedRoute
    ∧ (st.userLocation.isSome = true →
        (handleStartNavigation st slot now (getRoute (.error e))).2 = .navError) := by
  cases h : st.userLocation <;> simp [handleStartNavigation, getRoute, h]

/-- Witness for C8 at concrete inputs. -/
theorem startNavigation_atomic_on_error_witness :
    appEx.userLocation.isSome = true
    ∧ (handleStartNavigation appEx slotEx 0 (getRoute (.error "network down"))).2
        = .navError :=
  ⟨by decide,
   (startNavigation_atomic_on_error appEx slotEx 0 "network down").2.2.2.2 (by decide)⟩

/-! ### C3 -/

/-- C3 counterexample: interactions 99 ms apart (each well under 10 s apart)
do not keep the camera user-controlled.  The second interaction is dropped
by the 100 ms throttle wrapped around `handleUserMapInteraction`, so it does
not restart the idle timer, and the timer scheduled by the first interaction
fires 10 s later, reverting the camera to autonomous. -/
theorem camera_reverts_despite_rapid_interactions :
    ((100099 : ℤ) - 100000 < 10000)
    ∧ (camRun true {} c3CexEvents).isUserControlled = false := by
  decide

/-- C3 amended: a user interaction while autonomous that passes the 100 ms
throttle makes the camera user-controlled and (when navigating) schedules
the idle timer 10 s out; a pending timer that elapses reverts to autonomous
with bearing 0; and any event trace in which every interaction passes the
throttle and happens strictly before the currently pending firing time
keeps the camera user-controlled throughout. -/
theorem camera_state_machine_spec :
    (∀ (nav : Bool) (now : ℤ) (s : CamSys), s.isUserControlled = false →
      100 ≤ now - s.throttleLast →
      (handleUserMapInteraction nav now s).isUserControlled = true
      ∧ (nav = true →
          (handleUserMapInteraction nav now s).idleTimeout = some (now + 10000)))
    ∧ (∀ (now : ℤ) (s : CamSys) (tf : ℤ), s.idleTimeout = some tf → tf ≤ now →
        (camTick now s).isUserControlled = false ∧ (camTick now s).bearing = 0)
    ∧ (∀ (evs : List CamEvent) (s : CamSys) (tf : ℤ), s.isUserControlled = true →
        s.idleTimeout = some tf → camGapOK tf s.throttleLast evs = true →
        (camRun true s evs).isUserControlled = true) := by
  refine ⟨?_, ?_, ?_⟩
  · intro nav now s _hauto hthr
    constructor
    · simp [handleUserMapInteraction, if_pos hthr]
    · intro hnav
      simp [handleUserMapInteraction, if_pos hthr, hnav]
  · intro now s tf hp hle
    simp [camTick, hp, if_pos hle, fireIdleTimer]
  · intro evs
    induction evs with
    | nil =>
        intro s tf hu _hp _hgap
        simpa [camRun] using hu
    | cons e rest ih =>
        intro s tf hu hp hgap
        cases e with
        | interact t =>
            simp only [camGapOK, Bool.and_eq_true, decide_eq_true_eq] at hgap
            obtain ⟨⟨_htf, hthr⟩, hrest⟩ := hgap
            have hstep : camRun true s (CamEvent.interact t :: rest)
                = camRun true (handleUserMapInteraction true t s) rest := by
              simp [camRun, camStep]
            rw [hstep]
            apply ih (handleUserMapInteraction true t s) (t + 10000)
            · simp [handleUserMapInteraction, if_pos hthr]
            · simp [handleUserMapInteraction, if_pos hthr]
            · have hthr2 : (handleUserMapInteraction true t s).throttleLast = t := by
                simp [handleUserMapInteraction, if_pos hthr]
              rw [hthr2]
              exact hrest
        | tick t =>
            simp only [camGapOK, Bool.and_eq_true, decide_eq_true_eq] at hgap
            obtain ⟨htf, hrest⟩ := hgap
            have hstep : camRun true s (CamEvent.tick t :: rest)
                = camRun true (camTick t s) rest := by
              simp [camRun, camStep]
            have hT : camTick t s = s := by
              simp [camTick, hp, if_neg (not_le.mpr htf)]
            rw [hstep, hT]
            exact ih s tf hu hp hrest

/-- Witness for the amended C3 at concrete inputs. -/
theorem camera_state_machine_witness :
    (camUC.isUserControlled = true
      ∧ camGapOK 110000 camUC.throttleLast c3WitEvents = true
      ∧ (camRun true camUC c3WitEvents).isUserControlled = true)
    ∧ (handleUserMapInteraction true 100000 {}).isUserControlled = true
    ∧ ((camTick 110000 camUC).isUserControlled = false
        ∧ (camTick 110000 camUC).bearing = 0) :=
  ⟨⟨by decide, by decide,
    camera_state_machine_spec.2.2 c3WitEvents camUC 110000 (by decide) (by decide)
      (by decide)⟩,
   (camera_state_machine_spec.1 true 100000 {} (by decide) (by decide)).1,
   camera_state_machine_spec.2.1 110000 camUC 110000 (by decide) (by decide)⟩

/-! ### C9 -/

/-- `normUp` is the identity on non-negative inputs. -/
theorem normUp_of_nonneg {x : ℚ} (h : 0 ≤ x) : normUp x = x := by
  rw [normUp]
  simp [not_lt.mpr h]

/-- `normDown` is the identity below 360. -/
theorem normDown_of_lt {x : ℚ} (h : x < 360) : normDown x = x := by
  rw [normDown]
  simp [not_le.mpr h]

/-- `normalizeHeading` is the identity on `[0, 360)`. -/
theorem normalizeHeading_of_mem {x : ℚ} (h0 : 0 ≤ x) (h1 : x < 360) :
    normalizeHeading x = x := by
  rw [normalizeHeading, normUp_of_nonneg h0, normDown_of_lt h1]

/-- `normalizeHeading` folds one full positive turn back into `[0, 360)`. -/
theorem normalizeHeading_add_360 {x : ℚ} (h0 : 0 ≤ x) (h1 : x < 360) :
    normalizeHeading (x + 360) = x := by
  rw [normalizeHeading, normUp_of_nonneg (by linarith)]
  rw [normDown]
  rw [dif_pos (by linarith : (360 : ℚ) ≤ x + 360)]
  simp only [add_sub_cancel_right]
  exact normDown_of_lt h1

/-- `normalizeHeading` folds one full negative turn back into `[0, 360)`. -/
theorem normalizeHeading_sub_360 {x : ℚ} (h0 : 0 ≤ x) (h1 : x < 360) :
    normalizeHeading (x - 360) = x := by
  rw [normalizeHeading, normUp]
  rw [dif_pos (by linarith : x - 360 < 0)]
  rw [sub_add_cancel, normUp_of_nonneg h0, normDown_of_lt h1]

/-- C9: with smoothing factor 0 every heading update returns the raw
(normalized-range) input unchanged, and the first update with no prior
smoothed state returns it unchanged for any smoothing factor. -/
theorem headingSmoothing_passthrough (s prev raw : ℚ) (h0 : 0 ≤ raw) (h1 : raw < 360) :
    handleOrientationChange 0 (some prev) raw = raw
    ∧ handleOrientationChange s none raw = raw := by
  constructor
  · show applySmoothingToHeading 0 prev (normalizeHeading raw) = raw
    rw [normalizeHeading_of_mem h0 h1]
    rw [applySmoothingToHeading]
    by_cases hd1 : raw - prev > 180
    · rw [if_pos hd1]
      have harg : prev + (raw - prev - 360) * (1 - 0) = raw - 360 := by ring
      simp only [harg]
      exact normalizeHeading_sub_360 h0 h1
    · rw [if_neg hd1]
      by_cases hd2 : raw - prev < -180
      · rw [if_pos hd2]
        have harg : prev + (raw - prev + 360) * (1 - 0) = raw + 360 := by ring
        simp only [harg]
        exact normalizeHeading_add_360 h0 h1
      · rw [if_neg hd2]
        have harg : prev + (raw - prev) * (1 - 0) = raw := by ring
        simp only [harg]
        exact normalizeHeading_of_mem h0 h1
  · show normalizeHeading raw = raw
    exact normalizeHeading_of_mem h0 h1

/-- Witness for C9 at concrete inputs. -/
theorem headingSmoothing_passthrough_witness :
    (0 ≤ (10 : ℚ)) ∧ ((10 : ℚ) < 360)
    ∧ handleOrientationChange 0 (some 350) 10 = 10
    ∧ handleOrientationChange (4 / 5) none 10 = 10 :=
  ⟨by decide, by decide,
   (headingSmoothing_passthrough (4 / 5) 350 10 (by decide) (by decide)).1,
   (headingSmoothing_passthrough (4 / 5) 350 10 (by decide) (by decide)).2⟩

/-! ### C1 and C10 -/

/-- Accumulating the remaining step distances in source order is the
accumulator plus the sum of the remaining distances. -/
theorem foldl_add_distance (l : List RouteStep) (q : ℚ) :
    l.foldl (fun acc s => acc + s.distance) q = q + (l.map RouteStep.distance).sum := by
  induction l generalizing q with
  | nil => simp
  | cons s tl ih =>
      simp only [List.foldl_cons, List.map_cons, List.sum_cons]
      rw [ih, add_assoc]

/-- Accumulating finite durations onto a finite JavaScript number stays
finite and sums. -/
theorem foldl_jsadd_fin (l : List RouteStep) (q : ℚ) :
    l.foldl (fun acc s => acc.add (JsNum.fin s.duration)) (JsNum.fin q)
      = JsNum.fin (q + (l.map RouteStep.duration).sum) := by
  induction l generalizing q with
  | nil => simp
  | cons s tl ih =>
      simp only [List.foldl_cons, List.map_cons, List.sum_cons]
      rw [show (JsNum.fin q).add (JsNum.fin s.duration) = JsNum.fin (q + s.duration) from rfl]
      rw [ih, add_assoc]

/-- Accumulating finite durations onto `NaN` stays `NaN`. -/
theorem foldl_jsadd_nan (l : List RouteStep) :
    l.foldl (fun acc s => acc.add (JsNum.fin s.duration)) JsNum.nan = JsNum.nan := by
  induction l with
  | nil => rfl
  | cons s tl ih => simpa [List.foldl_cons] using ih

/-- Accumulating finite durations onto `+Infinity` stays `+Infinity`. -/
theorem foldl_jsadd_posInf (l : List RouteStep) :
    l.foldl (fun acc s => acc.add (JsNum.fin s.duration)) JsNum.posInf = JsNum.posInf := by
  induction l with
  | nil => rfl
  | cons s tl ih => simpa [List.foldl_cons] using ih

/-- Finite-by-finite JavaScript division with a nonzero denominator is the
finite quotient. -/
theorem jsdiv_fin_fin {a b : ℚ} (hb : b ≠ 0) :
    (JsNum.fin a).div (JsNum.fin b) = JsNum.fin (a / b) := by
  simp [JsNum.div, hb]

/-- JavaScript `0 / 0` is `NaN`. -/
theorem jsdiv_zero_zero : (JsNum.fin (0 : ℚ)).div (JsNum.fin 0) = JsNum.nan := by
  simp [JsNum.div]

/-- JavaScript `a / 0` for positive `a` is `+Infinity`. -/
theorem jsdiv_pos_zero {a : ℚ} (ha : 0 < a) :
    (JsNum.fin a).div (JsNum.fin 0) = JsNum.posInf := by
  simp [JsNum.div, ne_of_gt ha, ha]

/-- JavaScript `Infinity * b` for positive finite `b` is `+Infinity`. -/
theorem jsmul_posInf_pos {b : ℚ} (hb : 0 < b) :
    JsNum.posInf.mul (JsNum.fin b) = JsNum.posInf := by
  simp [JsNum.mul, ne_of_gt hb, hb]

/-- With the step index in range, `index`-based access agrees with the
`getD` used in the claim statements. -/
theorem steps_getD_eq_get (route : NavigationRoute) (idx : ℕ)
    (h : idx < route.steps.length) :
    route.steps.getD idx default = route.steps.get ⟨idx, h⟩ := by
  simp [List.getD_eq_getElem?_getD, List.getElem?_eq_getElem h]

/-- C1: for a current step index in range, `calculateProgress` returns
`remainingDistance` equal to the distance from the position to the current
step's last geometry point plus the sum of all subsequent step distances;
`nextTurnInstruction` is the following step's instruction when one exists,
and both next-turn fields are absent when the current step is the final
step. -/
theorem calculateProgress_spec (d : Coordinates → Coordinates → ℚ)
    (pos : Coordinates) (route : NavigationRoute) (idx : ℕ)
    (h : idx < route.steps.length)
    (_hne : (route.steps.getD idx default).coordinates ≠ []) :
    (calculateProgress d pos route idx).remainingDistance
      = d pos ((route.steps.getD idx default).coordinates.getLastD default)
        + ((route.steps.drop (idx + 1)).map RouteStep.distance).sum
    ∧ (idx + 1 < route.steps.length →
        (calculateProgress d pos route idx).nextTurnInstruction
          = some (route.steps.getD (idx + 1) default).instruction)
    ∧ (idx + 1 = route.steps.length →
        (calculateProgress d pos route idx).nextTurnInstruction = none
        ∧ (calculateProgress d pos route idx).nextTurnDistance = none) := by
  refine ⟨?_, ?_, ?_⟩
  · rw [steps_getD_eq_get route idx h]
    show (if h2 : idx < route.steps.length then
        (route.steps.drop (idx + 1)).foldl (fun acc s => acc + s.distance)
          (d pos ((route.steps.get ⟨idx, h2⟩).coordinates.getLastD default))
      else (0 : ℚ))
      = d pos ((route.steps.get ⟨idx, h⟩).coordinates.getLastD default)
        + ((route.steps.drop (idx + 1)).map RouteStep.distance).sum
    rw [dif_pos h, foldl_add_distance]
  · intro h2
    rw [steps_getD_eq_get route (idx + 1) h2]
    show (if h3 : idx + 1 < route.steps.length then
        some (route.steps.get ⟨idx + 1, h3⟩).instruction else none) = _
    rw [dif_pos h2]
  · intro h2
    have h3 : ¬ (idx + 1 < route.steps.length) := by omega
    constructor
    · show (if h4 : idx + 1 < route.steps.length then
          some (route.steps.get ⟨idx + 1, h4⟩).instruction else none) = none
      rw [dif_neg h3]
    · show (if h4 : idx + 1 < route.steps.length then
          some (d pos ((route.steps.get ⟨idx + 1, h4⟩).coordinates.headD default))
        else none) = none
      rw [dif_neg h3]

/-- Witness for C1 on a concrete three-step route. -/
theorem calculateProgress_spec_witness :
    (0 < route1.steps.length) ∧ ((route1.steps.getD 0 default).coordinates ≠ [])
    ∧ ((calculateProgress dOne pos1 route1 0).remainingDistance
        = dOne pos1 ((route1.steps.getD 0 default).coordinates.getLastD default)
          + ((route1.steps.drop 1).map RouteStep.distance).sum)
    ∧ ((calculateProgress dOne pos1 route1 0).nextTurnInstruction
        = some (route1.steps.getD 1 default).instruction) :=
  ⟨by decide, by decide,
   (calculateProgress_spec dOne pos1 route1 0 (by decide) (by decide)).1,
   (calculateProgress_spec dOne pos1 route1 0 (by decide) (by decide)).2.1 (by decide)⟩

/-- C10 counterexample: a route whose current step has scalar distance 0 and
whose step-end lies away from the position yields `remainingTime =
+Infinity` (a JavaScript number that is *not* `NaN`): the division produces
`Infinity`, not `NaN`, whenever the distance to the step end is nonzero. -/
theorem remainingTime_zero_distance_counterexample :
    (routeZero.steps.getD 0 default).distance = 0
    ∧ (calculateProgress dOne posZ routeZero 0).remainingTime = JsNum.posInf
    ∧ (calculateProgress dOne posZ routeZero 0).remainingTime ≠ JsNum.nan := by
  decide

/-- C10 amended: the `remainingTime` division has no zero guard.  With a
strictly positive current-step distance the result is a finite number; with
a zero current-step distance the result is `NaN` exactly when the computed
distance to the step end is also 0, and `+Infinity` when that distance is
positive (and the step duration is positive) - in either case not a finite
number. -/
theorem remainingTime_division_spec (d : Coordinates → Coordinates → ℚ)
    (pos : Coordinates) (route : NavigationRoute) (idx : ℕ)
    (h : idx < route.steps.length) :
    (0 < (route.steps.getD idx default).distance →
      ∃ q, (calculateProgress d pos route idx).remainingTime = JsNum.fin q)
    ∧ ((route.steps.getD idx default).distance = 0 →
        d pos ((route.steps.getD idx default).coordinates.getLastD default) = 0 →
        (calculateProgress d pos route idx).remainingTime = JsNum.nan)
    ∧ ((route.steps.getD idx default).distance = 0 →
        0 < d pos ((route.steps.getD idx default).coordinates.getLastD default) →
        0 < (route.steps.getD idx default).duration →
        (calculateProgress d pos route idx).remainingTime = JsNum.posInf) := by
  rw [steps_getD_eq_get route idx h]
  have hshow : (calculateProgress d pos route idx).remainingTime
      = (route.steps.drop (idx + 1)).foldl (fun acc s => acc.add (JsNum.fin s.duration))
          ((JsNum.fin 0).add
            (((JsNum.fin (d pos ((route.steps.get ⟨idx, h⟩).coordinates.getLastD default))).div
                (JsNum.fin (route.steps.get ⟨idx, h⟩).distance)).mul
              (JsNum.fin (route.steps.get ⟨idx, h⟩).duration))) := by
    show (if h2 : idx < route.steps.length then
        (route.steps.drop (idx + 1)).foldl (fun acc s => acc.add (JsNum.fin s.duration))
          ((JsNum.fin 0).add
            (((JsNum.fin (d pos ((route.steps.get ⟨idx, h2⟩).coordinates.getLastD default))).div
                (JsNum.fin (route.steps.get ⟨idx, h2⟩).distance)).mul
              (JsNum.fin (route.steps.get ⟨idx, h2⟩).duration)))
      else JsNum.fin 0)
      = (route.steps.drop (idx + 1)).foldl (fun acc s => acc.add (JsNum.fin s.duration))
          ((JsNum.fin 0).add
            (((JsNum.fin (d pos ((route.steps.get ⟨idx, h⟩).coordinates.getLastD default))).div
                (JsNum.fin (route.steps.get ⟨idx, h⟩).distance)).mul
              (JsNum.fin (route.steps.get ⟨idx, h⟩).duration)))
    rw [dif_pos h]
  refine ⟨?_, ?_, ?_⟩
  · intro hpos
    rw [hshow, jsdiv_fin_fin (ne_of_gt hpos)]
    rw [show ((JsNum.fin (d pos ((route.steps.get ⟨idx, h⟩).coordinates.getLastD default)
            / (route.steps.get ⟨idx, h⟩).distance)).mul
          (JsNum.fin (route.steps.get ⟨idx, h⟩).duration))
        = JsNum.fin (d pos ((route.steps.get ⟨idx, h⟩).coordinates.getLastD default)
            / (route.steps.get ⟨idx, h⟩).distance * (route.steps.get ⟨idx, h⟩).duration)
        from rfl]
    rw [show (JsNum.fin (0 : ℚ)).add
          (JsNum.fin (d pos ((route.steps.get ⟨idx, h⟩).coordinates.getLastD default)
            / (route.steps.get ⟨idx, h⟩).distance * (route.steps.get ⟨idx, h⟩).duration))
        = JsNum.fin (0 + d pos ((route.steps.get ⟨idx, h⟩).coordinates.getLastD default)
            / (route.steps.get ⟨idx, h⟩).distance * (route.steps.get ⟨idx, h⟩).duration)
        from rfl]
    exact ⟨_, foldl_jsadd_fin _ _⟩
  · intro hz hd
    rw [hshow, hz, hd, jsdiv_zero_zero]
    rw [show JsNum.nan.mul (JsNum.fin (route.steps.get ⟨idx, h⟩).duration)
        = JsNum.nan from rfl]
    rw [show (JsNum.fin (0 : ℚ)).add JsNum.nan = JsNum.nan from rfl]
    exact foldl_jsadd_nan _
  · intro hz hd hdur
    rw [hshow, hz, jsdiv_pos_zero hd, jsmul_posInf_pos hdur]
    rw [show (JsNum.fin (0 : ℚ)).add JsNum.posInf = JsNum.posInf from rfl]
    exact foldl_jsadd_posInf _

/-- Witness for the amended C10: the division really produces `+Infinity` on
the zero-distance route, and a finite value on `route1`. -/
theorem remainingTime_division_spec_witness :
    ((calculateProgress dOne posZ routeZero 0).remainingTime = JsNum.posInf)
    ∧ (∃ q, (calculateProgress dOne pos1 route1 0).remainingTime = JsNum.fin q) :=
  ⟨(remainingTime_division_spec dOne posZ routeZero 0 (by decide)).2.2 (by decide)
     (by decide) (by decide),
   (remainingTime_division_spec dOne pos1 route1 0 (by decide)).1 (by decide)⟩

/-! ### C7 -/

/-- Head of an append with a non-empty left part. -/
theorem head?_append_left {α : Type _} (l1 l2 : List α) (h : l1 ≠ []) :
    (l1 ++ l2).head? = l1.head? := by
  cases l1 with
  | nil => exact absurd rfl h
  | cons a t => rfl

/-- Taking at least one element preserves the head. -/
theorem head?_take_succ {α : Type _} (l : List α) (k : ℕ) :
    (l.take (k + 1)).head? = l.head? := by
  cases l <;> rfl

/-- Dropping the last element of a list with at least two elements preserves
the head. -/
theorem head?_dropLast_of_two_le {α : Type _} (l : List α) (h : 2 ≤ l.length) :
    l.dropLast.head? = l.head? := by
  cases l with
  | nil => simp at h
  | cons a t =>
      cases t with
      | nil => simp at h
      | cons b t2 => rfl

/-- Dropping an in-range prefix preserves the last element. -/
theorem getLast?_drop_of_lt {α : Type _} (l : List α) (k : ℕ) (h : k < l.length) :
    (l.drop k).getLast? = l.getLast? := by
  have hne : l.drop k ≠ [] := by
    intro hnil
    have h0 : (l.drop k).length = 0 := by rw [hnil]; rfl
    rw [List.length_drop] at h0
    omega
  conv_rhs => rw [← List.take_append_drop k l]
  exact (List.getLast?_append_of_ne_nil _ hne).symm

/-- The index recorded by the Douglas-Peucker scan never exceeds the length
of the scanned `middle` segment. -/
theorem dpMaxScan_snd_le (ptd : Coordinates → Coordinates → Coordinates → ℚ)
    (first last : Coordinates) (middle : List Coordinates) :
    (dpMaxScan ptd first last middle).2 ≤ middle.length := by
  have key : ∀ (l : List (ℕ × Coordinates)) (acc : ℚ × ℕ), acc.2 ≤ middle.length →
      (∀ p ∈ l, p.1 + 1 ≤ middle.length) →
      (l.foldl (fun acc ic =>
          if ptd ic.2 first last > acc.1 then (ptd ic.2 first last, ic.1 + 1) else acc)
        acc).2 ≤ middle.length := by
    intro l
    induction l with
    | nil => intro acc hacc _; simpa using hacc
    | cons p t iht =>
        intro acc hacc hl
        simp only [List.foldl_cons]
        by_cases hc : ptd p.2 first last > acc.1
        · rw [if_pos hc]
          exact iht _ (hl p (List.mem_cons_self p t)) fun q hq => hl q (List.mem_cons_of_mem _ hq)
        · rw [if_neg hc]
          exact iht _ hacc fun q hq => hl q (List.mem_cons_of_mem _ hq)
  apply key
  · exact Nat.zero_le _
  · intro p hp
    have hlt : p.1 < middle.length := by
      by_contra hge
      have hnone : middle[p.1]? = none := by
        rw [List.getElem?_eq_none_iff]
        omega
      have hsome := List.mem_enum_iff_getElem?.mp hp
      rw [hnone] at hsome
      exact Option.noConfusion hsome
    omega

/-- Structural induction for Douglas-Peucker: every successful run preserves
the head and last elements, never lengthens the list, and keeps at least two
points when given at least two. -/
theorem douglasPeucker_strong (ptd : Coordinates → Coordinates → Coordinates → ℚ) :
    ∀ (fuel : ℕ) (pts : List Coordinates) (tol : ℚ) (res : List Coordinates),
      douglasPeucker ptd fuel pts tol = some res →
      res.head? = pts.head? ∧ res.getLast? = pts.getLast? ∧ res.length ≤ pts.length
      ∧ (2 ≤ pts.length → 2 ≤ res.length) := by
  intro fuel
  induction fuel with
  | zero =>
      intro pts tol res h
      rw [show douglasPeucker ptd 0 pts tol = none from rfl] at h
      exact Option.noConfusion h
  | succ n ih =>
      intro pts tol res h
      rw [douglasPeucker] at h
      by_cases hlen : pts.length ≤ 2
      · rw [if_pos hlen] at h
        injection h with h2
        subst h2
        exact ⟨rfl, rfl, le_refl _, fun h2 => h2⟩
      · rw [if_neg hlen] at h
        push_neg at hlen
        set m := dpMaxScan ptd (pts.headD default) (pts.getLastD default) (pts.drop 1)
          with hm
        have hplen : 3 ≤ pts.length := hlen
        have hmle : m.2 ≤ pts.length - 1 := by
          have hb := dpMaxScan_snd_le ptd (pts.headD default) (pts.getLastD default)
            (pts.drop 1)
          rw [List.length_drop] at hb
          rw [hm]
          exact hb
        have hpne : pts ≠ [] := by
          intro hnil
          rw [hnil] at hplen
          simp at hplen
        by_cases htol : m.1 > tol
        · rw [if_pos htol] at h
          cases hl : douglasPeucker ptd n (pts.take (m.2 + 1)) tol with
          | none =>
              rw [hl] at h
              cases hr : douglasPeucker ptd n (pts.drop m.2) tol <;> rw [hr] at h <;>
                exact Option.noConfusion h
          | some left =>
              rw [hl] at h
              cases hr : douglasPeucker ptd n (pts.drop m.2) tol with
              | none => rw [hr] at h; exact Option.noConfusion h
              | some right =>
                  rw [hr] at h
                  injection h with h2
                  subst h2
                  obtain ⟨ih1h, _ih1l, ih1len, ih1two⟩ := ih (pts.take (m.2 + 1)) tol left hl
                  obtain ⟨ih2h, ih2l, ih2len, ih2two⟩ := ih (pts.drop m.2) tol right hr
                  have hdropne : pts.drop m.2 ≠ [] := by
                    intro hnil
                    have h0 : (pts.drop m.2).length = 0 := by rw [hnil]; rfl
                    rw [List.length_drop] at h0
                    omega
                  have hrightne : right ≠ [] := by
                    intro hnil
                    rw [hnil] at ih2h
                    cases hcd : pts.drop m.2 with
                    | nil => exact hdropne hcd
                    | cons a t => rw [hcd] at ih2h; simp at ih2h
                  have hlast : (left.dropLast ++ right).getLast? = pts.getLast? := by
                    rw [List.getLast?_append_of_ne_nil _ hrightne, ih2l,
                      getLast?_drop_of_lt _ _ (by omega : m.2 < pts.length)]
                  have hlt : left.length ≤ m.2 + 1 := by
                    rw [List.length_take] at ih1len
                    omega
                  have hrt : right.length ≤ pts.length - m.2 := by
                    rw [List.length_drop] at ih2len
                    exact ih2len
                  have hlenres : (left.dropLast ++ right).length ≤ pts.length := by
                    rw [List.length_append, List.length_dropLast]
                    omega
                  by_cases hm0 : m.2 = 0
                  · rw [hm0, List.drop_zero] at ih2h ih2two
                    have hleft1 : ∃ a, left = [a] := by
                      rw [hm0] at ih1h hlt
                      rw [head?_take_succ] at ih1h
                      cases hcl : left with
                      | nil =>
                          rw [hcl] at ih1h
                          cases hcp : pts with
                          | nil => exact absurd hcp hpne
                          | cons a t => rw [hcp] at ih1h; simp at ih1h
                      | cons a t =>
                          refine ⟨a, ?_⟩
                          rw [hcl] at hlt
                          simp only [List.length_cons] at hlt
                          have ht : t = [] := by
                            cases t with
                            | nil => rfl
                            | cons b t2 => simp at hlt
                          rw [ht]
                    obtain ⟨a, ha⟩ := hleft1
                    rw [ha]
                    have hdl : ([a] : List Coordinates).dropLast = [] := rfl
                    rw [hdl, List.nil_append]
                    have hres2 : 2 ≤ right.length := ih2two (by omega)
                    refine ⟨ih2h, ?_, ?_, fun _ => hres2⟩
                    · rw [ih2l, getLast?_drop_of_lt _ _ (by omega : m.2 < pts.length)]
                    · rw [ha] at hlenres
                      rw [hdl, List.nil_append] at hlenres
                      exact hlenres
                  · have hm1 : 1 ≤ m.2 := Nat.one_le_iff_ne_zero.mpr hm0
                    have htake_len : (pts.take (m.2 + 1)).length = m.2 + 1 := by
                      rw [List.length_take]
                      omega
                    have hltwo : 2 ≤ left.length := ih1two (by rw [htake_len]; omega)
                    have hldne : left.dropLast ≠ [] := by
                      intro hnil
                      have h0 : left.dropLast.length = 0 := by rw [hnil]; rfl
                      rw [List.length_dropLast] at h0
                      omega
                    have hrpos : 1 ≤ right.length := by
                      cases hcr : right with
                      | nil => exact absurd hcr hrightne
                      | cons a t => simp
                    refine ⟨?_, hlast, hlenres, fun _ => ?_⟩
                    · rw [head?_append_left _ _ hldne, head?_dropLast_of_two_le _ hltwo,
                        ih1h, head?_take_succ]
                    · rw [List.length_append, List.length_dropLast]
                      omega
        · rw [if_neg htol] at h
          injection h with h2
          subst h2
          have hhead : pts.head? = some (pts.headD default) := by
            cases pts with
            | nil => exact absurd rfl hpne
            | cons a t => rfl
          have hlastD : pts.getLast? = some (pts.getLastD default) := by
            obtain ⟨x, hx⟩ := Option.isSome_iff_exists.mp (List.getLast?_isSome.mpr hpne)
            rw [List.getLastD_eq_getLast?, hx]
            rfl
          refine ⟨?_, ?_, ?_, fun _ => ?_⟩
          · rw [hhead]
            rfl
          · rw [hlastD]
            simp
          · simp only [List.length_cons, List.length_nil]
            omega
          · simp

/-- C7 amended: whenever Douglas-Peucker returns on a non-empty input (in
particular for any nonnegative tolerance; a negative tolerance can make the
recursion diverge, see the counterexample) the output's first and last
elements equal the input's, and the output is never longer than the input. -/
theorem douglasPeucker_endpoints (ptd : Coordinates → Coordinates → Coordinates → ℚ)
    (fuel : ℕ) (pts : List Coordinates) (tol : ℚ) (res : List Coordinates)
    (_hne : pts ≠ []) (hsome : douglasPeucker ptd fuel pts tol = some res) :
    res.head? = pts.head? ∧ res.getLast? = pts.getLast? ∧ res.length ≤ pts.length :=
  ⟨(douglasPeucker_strong ptd fuel pts tol res hsome).1,
   (douglasPeucker_strong ptd fuel pts tol res hsome).2.1,
   (douglasPeucker_strong ptd fuel pts tol res hsome).2.2.1⟩

/-- Witness for the amended C7 on a concrete three-point polyline. -/
theorem douglasPeucker_endpoints_witness :
    (pts3 ≠ [])
    ∧ douglasPeucker ptdZero 5 pts3 1 = some [⟨0, 0⟩, ⟨0, 2⟩]
    ∧ (([(⟨0, 0⟩ : Coordinates), ⟨0, 2⟩]).head? = pts3.head?
        ∧ ([(⟨0, 0⟩ : Coordinates), ⟨0, 2⟩]).getLast? = pts3.getLast?
        ∧ ([(⟨0, 0⟩ : Coordinates), ⟨0, 2⟩]).length ≤ pts3.length) :=
  ⟨by decide, by decide,
   douglasPeucker_endpoints ptdZero 5 pts3 1 _ (by decide) (by decide)⟩

/-- On the degenerate three-point polyline with a negative tolerance the
recursion re-enters itself on the whole list (`maxIndex = 0`, so
`points.slice(0)` is `points`), and therefore never returns, whatever the
fuel. -/
theorem douglasPeucker_degenerate_none :
    ∀ n : ℕ, douglasPeucker ptdZero n ptsDegenerate (-1) = none := by
  intro n
  induction n with
  | zero => rfl
  | succ n ih =>
      rw [douglasPeucker]
      rw [if_neg (by decide : ¬ (ptsDegenerate.length ≤ 2))]
      have hscan : dpMaxScan ptdZero (ptsDegenerate.headD default)
          (ptsDegenerate.getLastD default) (ptsDegenerate.drop 1) = (0, 0) := by decide
      rw [hscan]
      rw [if_pos (by decide : ((0 : ℚ), (0 : ℕ)).1 > (-1 : ℚ))]
      rw [show (((0 : ℚ), (0 : ℕ)).2 : ℕ) = 0 from rfl]
      rw [List.drop_zero, ih]
      cases douglasPeucker ptdZero n (ptsDegenerate.take (((0 : ℚ), (0 : ℕ)).2 + 1)) (-1) <;>
        rfl

/-- C7 counterexample: for the non-empty degenerate polyline and tolerance
`-1` the simplifier never returns at all (it overflows the stack in
JavaScript), so it does not return a list with the claimed properties. -/
theorem douglasPeucker_diverges_counterexample :
    ptsDegenerate ≠ []
    ∧ ¬ ∃ (n : ℕ) (res : List Coordinates),
        douglasPeucker ptdZero n ptsDegenerate (-1) = some res := by
  refine ⟨by decide, ?_⟩
  rintro ⟨n, res, h⟩
  rw [douglasPeucker_degenerate_none n] at h
  exact Option.noConfusion h

/-! ### C2 -/

/-- If no point of the scanned geometry strictly improves on the running
minimum, the inner scan leaves the accumulator unchanged. -/
theorem findScanCoords_no (d : Coordinates → Coordinates → ℚ) (pos : Coordinates)
    (i : ℕ) :
    ∀ (cs : List Coordinates) (b : WithTop ℚ) (r : ℕ),
      (∀ c ∈ cs, ¬ ((d pos c : WithTop ℚ) < b)) →
      findScanCoords d pos i cs (b, r) = (b, r) := by
  intro cs
  induction cs with
  | nil => intro b r _; rfl
  | cons c tl ih =>
      intro b r h
      rw [findScanCoords, if_neg (h c (List.mem_cons_self c tl))]
      exact ih b r fun c2 hc2 => h c2 (List.mem_cons_of_mem _ hc2)

/-- If some point of the scanned geometry strictly improves on the running
minimum, the inner scan returns the minimum of the geometry's distances
(attained at a point of the geometry) together with this step's index. -/
theorem findScanCoords_yes (d : Coordinates → Coordinates → ℚ) (pos : Coordinates)
    (i : ℕ) :
    ∀ (cs : List Coordinates) (b : WithTop ℚ) (r : ℕ),
      (∃ c ∈ cs, (d pos c : WithTop ℚ) < b) →
      ∃ c0 ∈ cs, findScanCoords d pos i cs (b, r) = ((d pos c0 : WithTop ℚ), i)
        ∧ (d pos c0 : WithTop ℚ) < b
        ∧ ∀ c ∈ cs, (d pos c0 : WithTop ℚ) ≤ (d pos c : WithTop ℚ) := by
  intro cs
  induction cs with
  | nil =>
      intro b r h
      obtain ⟨c, hc, _⟩ := h
      exact absurd hc (List.not_mem_nil c)
  | cons c tl ih =>
      intro b r h
      rw [findScanCoords]
      by_cases hc : (d pos c : WithTop ℚ) < b
      · rw [if_pos hc]
        by_cases ht : ∃ c2 ∈ tl, (d pos c2 : WithTop ℚ) < (d pos c : WithTop ℚ)
        · obtain ⟨c0, hc0mem, heq, hlt, hle⟩ := ih (d pos c) i ht
          refine ⟨c0, List.mem_cons_of_mem _ hc0mem, heq, lt_trans hlt hc, ?_⟩
          intro c2 hc2
          rcases List.mem_cons.mp hc2 with h2 | h2
          · rw [h2]; exact le_of_lt hlt
          · exact hle c2 h2
        · push_neg at ht
          rw [findScanCoords_no d pos i tl (d pos c) i
            fun c2 hc2 => not_lt.mpr (ht c2 hc2)]
          refine ⟨c, List.mem_cons_self c tl, rfl, hc, ?_⟩
          intro c2 hc2
          rcases List.mem_cons.mp hc2 with h2 | h2
          · rw [h2]
          · exact ht c2 h2
      · rw [if_neg hc]
        have htl : ∃ c2 ∈ tl, (d pos c2 : WithTop ℚ) < b := by
          obtain ⟨c2, hc2, hlt⟩ := h
          rcases List.mem_cons.mp hc2 with h2 | h2
          · rw [h2] at hlt; exact absurd hlt hc
          · exact ⟨c2, h2, hlt⟩
        obtain ⟨c0, hc0mem, heq, hlt, hle⟩ := ih b r htl
        refine ⟨c0, List.mem_cons_of_mem _ hc0mem, heq, hlt, ?_⟩
        intro c2 hc2
        rcases List.mem_cons.mp hc2 with h2 | h2
        · rw [h2]; exact le_of_lt (lt_of_lt_of_le hlt (not_lt.mp hc))
        · exact hle c2 h2

/-- If no point of any remaining step improves on the running minimum, the
outer scan leaves the accumulator unchanged. -/
theorem findScanSteps_no (d : Coordinates → Coordinates → ℚ) (pos : Coordinates) :
    ∀ (ss : List RouteStep) (i : ℕ) (b : WithTop ℚ) (r : ℕ),
      (∀ s ∈ ss, ∀ c ∈ s.coordinates, ¬ ((d pos c : WithTop ℚ) < b)) →
      findScanSteps d pos i ss (b, r) = (b, r) := by
  intro ss
  induction ss with
  | nil => intro i b r _; rfl
  | cons s tl ih =>
      intro i b r h
      rw [findScanSteps,
        findScanCoords_no d pos i s.coordinates b r (h s (List.mem_cons_self s tl))]
      exact ih (i + 1) b r fun s2 hs2 => h s2 (List.mem_cons_of_mem _ hs2)

/-- If some point of some remaining step improves on the running minimum,
the outer scan returns the index (offset by `i`) of the *first* step
containing a point attaining the global minimum of the remaining distances:
the result is an attained global minimum, and every earlier step's points
are strictly farther. -/
theorem findScanSteps_yes (d : Coordinates → Coordinates → ℚ) (pos : Coordinates) :
    ∀ (ss : List RouteStep) (i : ℕ) (b : WithTop ℚ) (r : ℕ),
      (∃ s ∈ ss, ∃ c ∈ s.coordinates, (d pos c : WithTop ℚ) < b) →
      ∃ k, ∃ hk : k < ss.length, ∃ c0, c0 ∈ (ss.get ⟨k, hk⟩).coordinates
        ∧ findScanSteps d pos i ss (b, r) = ((d pos c0 : WithTop ℚ), i + k)
        ∧ (d pos c0 : WithTop ℚ) < b
        ∧ (∀ s ∈ ss, ∀ c ∈ s.coordinates, (d pos c0 : WithTop ℚ) ≤ (d pos c : WithTop ℚ))
        ∧ ∀ k2, ∀ hk2 : k2 < ss.length, k2 < k →
            ∀ c ∈ (ss.get ⟨k2, hk2⟩).coordinates,
              (d pos c0 : WithTop ℚ) < (d pos c : WithTop ℚ) := by
  intro ss
  induction ss with
  | nil =>
      intro i b r h
      obtain ⟨s, hs, _⟩ := h
      exact absurd hs (List.not_mem_nil s)
  | cons s tl ih =>
      intro i b r h
      rw [findScanSteps]
      by_cases hc : ∃ c ∈ s.coordinates, (d pos c : WithTop ℚ) < b
      · obtain ⟨c0, hc0mem, heq, hlt, hle⟩ := findScanCoords_yes d pos i s.coordinates b r hc
        rw [heq]
        by_cases ht : ∃ s2 ∈ tl, ∃ c ∈ s2.coordinates,
            (d pos c : WithTop ℚ) < (d pos c0 : WithTop ℚ)
        · obtain ⟨k, hk, c1, hc1mem, heq2, hlt2, hle2, hstrict⟩ := ih (i + 1) (d pos c0) i ht
          refine ⟨k + 1, Nat.succ_lt_succ hk, c1, hc1mem, ?_, lt_trans hlt2 hlt, ?_, ?_⟩
          · rw [heq2]
            have : i + 1 + k = i + (k + 1) := by omega
            rw [this]
          · intro s2 hs2 c hcmem
            rcases List.mem_cons.mp hs2 with h2 | h2
            · rw [h2] at hcmem
              exact le_of_lt (lt_of_lt_of_le hlt2 (hle c hcmem))
            · exact hle2 s2 h2 c hcmem
          · intro k2 hk2 hk2lt c hcmem
            cases k2 with
            | zero => exact lt_of_lt_of_le hlt2 (hle c hcmem)
            | succ j =>
                exact hstrict j (Nat.lt_of_succ_lt_succ hk2) (Nat.lt_of_succ_lt_succ hk2lt)
                  c hcmem
        · push_neg at ht
          rw [findScanSteps_no d pos tl (i + 1) (d pos c0) i
            fun s2 hs2 c hcmem => not_lt.mpr (ht s2 hs2 c hcmem)]
          refine ⟨0, Nat.succ_pos _, c0, hc0mem, by rw [Nat.add_zero], hlt, ?_, ?_⟩
          · intro s2 hs2 c hcmem
            rcases List.mem_cons.mp hs2 with h2 | h2
            · rw [h2] at hcmem
              exact hle c hcmem
            · exact ht s2 h2 c hcmem
          · intro k2 _ hk2lt c _
            exact absurd hk2lt (Nat.not_lt_zero k2)
      · push_neg at hc
        rw [findScanCoords_no d pos i s.coordinates b r
          fun c hcmem => not_lt.mpr (hc c hcmem)]
        have htl : ∃ s2 ∈ tl, ∃ c ∈ s2.coordinates, (d pos c : WithTop ℚ) < b := by
          obtain ⟨s2, hs2, c, hcmem, hltc⟩ := h
          rcases List.mem_cons.mp hs2 with h2 | h2
          · rw [h2] at hcmem
            exact absurd hltc (not_lt.mpr (hc c hcmem))
          · exact ⟨s2, h2, c, hcmem, hltc⟩
        obtain ⟨k, hk, c1, hc1mem, heq2, hlt2, hle2, hstrict⟩ := ih (i + 1) b r htl
        refine ⟨k + 1, Nat.succ_lt_succ hk, c1, hc1mem, ?_, hlt2, ?_, ?_⟩
        · rw [heq2]
          have : i + 1 + k = i + (k + 1) := by omega
          rw [this]
        · intro s2 hs2 c hcmem
          rcases List.mem_cons.mp hs2 with h2 | h2
          · rw [h2] at hcmem
            exact le_of_lt (lt_of_lt_of_le hlt2 (hc c hcmem))
          · exact hle2 s2 h2 c hcmem
        · intro k2 hk2 hk2lt c hcmem
          cases k2 with
          | zero => exact lt_of_lt_of_le hlt2 (hc c hcmem)
          | succ j =>
              exact hstrict j (Nat.lt_of_succ_lt_succ hk2) (Nat.lt_of_succ_lt_succ hk2lt)
                c hcmem

/-- C2: provided the route has at least one geometry point,
`findCurrentStepIndex` returns an in-range index; the returned step contains
a point whose distance to the position is globally minimal over all steps'
points, and any step containing such a globally minimal point has index at
least the returned one (first-minimum-wins tie-break, deterministic). -/
theorem findCurrentStepIndex_nearest (d : Coordinates → Coordinates → ℚ)
    (pos : Coordinates) (route : NavigationRoute)
    (hne : ∃ s ∈ route.steps, s.coordinates ≠ []) :
    findCurrentStepIndex d pos route < route.steps.length
    ∧ ∃ c ∈ (route.steps.getD (findCurrentStepIndex d pos route) default).coordinates,
        (∀ s ∈ route.steps, ∀ c2 ∈ s.coordinates, d pos c ≤ d pos c2)
        ∧ ∀ j, j < route.steps.length →
            (∃ c1 ∈ (route.steps.getD j default).coordinates,
              ∀ s ∈ route.steps, ∀ c2 ∈ s.coordinates, d pos c1 ≤ d pos c2) →
            findCurrentStepIndex d pos route ≤ j := by
  have hex : ∃ s ∈ route.steps, ∃ c ∈ s.coordinates, (d pos c : WithTop ℚ) < ⊤ := by
    obtain ⟨s, hs, hne2⟩ := hne
    cases hcs : s.coordinates with
    | nil => exact absurd hcs hne2
    | cons c t =>
        exact ⟨s, hs, c, by rw [hcs]; exact List.mem_cons_self c t, WithTop.coe_lt_top _⟩
  obtain ⟨k, hk, c0, hc0mem, heq, _hlt, hle, hstrict⟩ :=
    findScanSteps_yes d pos route.steps 0 ⊤ 0 hex
  have hidx : findCurrentStepIndex d pos route = k := by
    rw [findCurrentStepIndex, heq]
    omega
  rw [hidx]
  refine ⟨hk, ?_⟩
  rw [steps_getD_eq_get route k hk]
  refine ⟨c0, hc0mem, ?_, ?_⟩
  · intro s hs c2 hc2
    exact WithTop.coe_le_coe.mp (hle s hs c2 hc2)
  · intro j hj hmin
    obtain ⟨c1, hc1mem, hc1min⟩ := hmin
    rw [steps_getD_eq_get route j hj] at hc1mem
    by_contra hgt
    push_neg at hgt
    have hlt1 : (d pos c0 : WithTop ℚ) < (d pos c1 : WithTop ℚ) :=
      hstrict j hj hgt c1 hc1mem
    have hle1 : d pos c1 ≤ d pos c0 :=
      hc1min (route.steps.get ⟨k, hk⟩) (route.steps.get_mem k hk) c0 hc0mem
    exact absurd (WithTop.coe_lt_coe.mp hlt1) (not_lt.mpr hle1)

/-- Witness for C2 on the concrete three-step route. -/
theorem findCurrentStepIndex_nearest_witness :
    (∃ s ∈ route1.steps, s.coordinates ≠ [])
    ∧ (findCurrentStepIndex dOne pos1 route1 < route1.steps.length
        ∧ ∃ c ∈ (route1.steps.getD (findCurrentStepIndex dOne pos1 route1)
              default).coordinates,
            (∀ s ∈ route1.steps, ∀ c2 ∈ s.coordinates, dOne pos1 c ≤ dOne pos1 c2)
            ∧ ∀ j, j < route1.steps.length →
                (∃ c1 ∈ (route1.steps.getD j default).coordinates,
                  ∀ s ∈ route1.steps, ∀ c2 ∈ s.coordinates, dOne pos1 c1 ≤ dOne pos1 c2) →
                findCurrentStepIndex dOne pos1 route1 ≤ j) :=
  ⟨by decide, findCurrentStepIndex_nearest dOne pos1 route1 (by decide)⟩

end CarPark
